import Mathlib

/-!
Verification development for the `linkage-project` preprocessing pipeline
(`src/preprocessing.py`).  Text is embedded as `List Char`; Python strings,
dicts, `collections.Counter`, regex substitutions and the thread-pool driver
are shallowly embedded below.  Functions of `utils.string_utils` are not part
of the repository sources and are modelled from the spec where noted.
-/

set_option linter.unusedVariables false

/-- Abbreviation: the character list of a string literal. -/
def sl (s : String) : List Char := s.data

/-- Python `\s` (ASCII fragment): whitespace characters. -/
def isWs (c : Char) : Bool := c = ' ' || c = '\t' || c = '\n' || c = '\r'

/-- Python `\w` (ASCII fragment): word characters. -/
def isWordChar (c : Char) : Bool := c.isAlphanum || c = '_'

/-- Word-character test on an optional character; `none` (out of range) is not a word character. -/
def isWordOpt : Option Char → Bool
  | none => false
  | some c => isWordChar c

/-- Digit test on an optional character. -/
def isDigitOpt : Option Char → Bool
  | none => false
  | some c => c.isDigit

/-- Length of the leading whitespace run. -/
def countWs (l : List Char) : Nat := (l.takeWhile isWs).length

/-- Length of the leading digit run. -/
def countDigits (l : List Char) : Nat := (l.takeWhile Char.isDigit).length

/-- Python `str.lower` (ASCII fragment). -/
def lowerT (l : List Char) : List Char := l.map Char.toLower

/-- Python `str.split()` helper: accumulate the current word reversed, flush at whitespace. -/
def splitWsGo : List Char → List Char → List (List Char)
  | racc, [] => if racc.isEmpty then [] else [racc.reverse]
  | racc, c :: rest =>
    if isWs c then
      if racc.isEmpty then splitWsGo [] rest else racc.reverse :: splitWsGo [] rest
    else splitWsGo (c :: racc) rest

/-- Python `str.split()` with no separator: whitespace runs delimit words, empties dropped. -/
def splitWs (s : List Char) : List (List Char) := splitWsGo [] s

/-- Python `' '.join(ws)`. -/
def joinWords : List (List Char) → List Char
  | [] => []
  | [w] => w
  | w :: ws => w ++ ' ' :: joinWords ws

/-- Fueled scanner for Python `str.replace(pat, '')`: delete every
non-overlapping occurrence of `pat`, scanning left to right. -/
def delGo (pat : List Char) : Nat → List Char → List Char
  | _, [] => []
  | 0, l => l
  | fuel+1, c :: rest =>
    if pat ≠ [] ∧ pat.isPrefixOf (c :: rest) then delGo pat fuel (rest.drop (pat.length - 1))
    else c :: delGo pat fuel rest

/-- Python `s.replace(pat, '')`. -/
def deleteSub (pat s : List Char) : List Char := delGo pat s.length s

/-- Substring occurrence test (any position). -/
def hasSub (pat : List Char) : List Char → Bool
  | [] => pat.isEmpty
  | c :: rest => pat.isPrefixOf (c :: rest) || hasSub pat rest

/-- `occursIn w s`: `w` occurs contiguously inside `s`. -/
def occursIn (w s : List Char) : Prop := ∃ u v, s = u ++ (w ++ v)

/-!  The three regex substitutions of `remove_non_relevant_words`.  Each regex
is translated into a matcher `(prevIsWord : Bool) → (suffix : List Char) →
Option Nat` giving the length of the match starting at that position, with
Python `re` leftmost / first-alternative / greedy-with-backtracking semantics,
and a fueled scanner performing `re.sub(pattern, '', s)`. -/

/-- `re.sub` scanner: at each position try the matcher; on a match of length
`k+1` skip those characters (replacing them by nothing), else emit the
character.  `pw` is whether the previous character of the original string is a
word character (for `\b`). -/
def subAllGo (m : Bool → List Char → Option Nat) : Nat → Bool → List Char → List Char
  | 0, _, l => l
  | _+1, _, [] => []
  | fuel+1, pw, c :: rest =>
    match m pw (c :: rest) with
    | some (k+1) => subAllGo m fuel (isWordOpt ((c :: rest).get? k)) (rest.drop k)
    | _ => c :: subAllGo m fuel (isWordChar c) rest

/-- `re.sub(pattern, '', s)` for a matcher `m`. -/
def subAll (m : Bool → List Char → Option Nat) (s : List Char) : List Char :=
  subAllGo m s.length false s

/-- Trailing `\s*\b` of the units regex: greedily take whitespace, backtracking
until a word boundary holds.  Returns the number of whitespace characters
consumed (the previous character is always a letter of the unit). -/
def trailLen (r : List Char) : Option Nat :=
  let w := countWs r
  if w = 0 then
    match r with
    | [] => some 0
    | c :: _ => if isWordChar c then none else some 0
  else if isWordOpt (r.get? w) then some w else some 0

/-- Unit alternatives of the first regex, in source order, with greedy
expansion of `g?hz`, `days?`, `months?`, `years?`. -/
def unitLits : List (List Char) :=
  [sl "inch", sl "in", sl "cm", sl "mm", sl "ms", sl "dc", sl "kg", sl "gb",
   sl "ghz", sl "hz", sl "days", sl "day", sl "months", sl "month",
   sl "years", sl "year"]

/-- Try the unit alternatives in order; for each matching literal also require
the trailing `\s*\b`, otherwise fall through to the next alternative. -/
def tryUnits : List (List Char) → List Char → Option Nat
  | [], _ => none
  | u :: us, l =>
    if u.isPrefixOf l then
      match trailLen (l.drop u.length) with
      | some t => some (u.length + t)
      | none => tryUnits us l
    else tryUnits us l

/-- Matcher of `r'\b\d+\s*(?:\.\d+)?(?:inch|in|cm|mm|ms|dc|kg|gb|g?hz|days?|months?|years?)\s*\b'`. -/
def matchUnit (pw : Bool) (l : List Char) : Option Nat :=
  if pw then none
  else
    let d := countDigits l
    if d = 0 then none
    else
      let l1 := l.drop d
      let w := countWs l1
      let l2 := l1.drop w
      let fr : Nat :=
        match l2 with
        | '.' :: r2 => let d2 := countDigits r2; if d2 = 0 then 0 else 1 + d2
        | _ => 0
      match tryUnits unitLits (l2.drop fr) with
      | some k => some (d + w + fr + k)
      | none => none

/-- Matcher of `r'\b\d+\s*x\s*\d+\b'` (resolutions like 1920x1080). -/
def matchRes (pw : Bool) (l : List Char) : Option Nat :=
  if pw then none
  else
    let d1 := countDigits l
    if d1 = 0 then none
    else
      let l1 := l.drop d1
      let w1 := countWs l1
      match l1.drop w1 with
      | 'x' :: r =>
        let w2 := countWs r
        let r2 := r.drop w2
        let d2 := countDigits r2
        if d2 = 0 then none
        else if isWordOpt (r2.get? d2) then none
        else some (d1 + w1 + 1 + w2 + d2)
      | _ => none

/-- A literal alternative: match length if it is a prefix. -/
def tryLit (u : List Char) (l : List Char) : Option Nat :=
  if u.isPrefixOf l then some u.length else none

/-- Greedy star `(\d{1,2}|vista|xp)*` of the windows alternative. -/
def winVerGo : Nat → List Char → Nat
  | 0, _ => 0
  | fuel+1, l =>
    match l with
    | [] => 0
    | c1 :: rest1 =>
      if c1.isDigit then
        match rest1 with
        | c2 :: rest2 => if c2.isDigit then 2 + winVerGo fuel rest2 else 1 + winVerGo fuel rest1
        | [] => 1
      else if (sl "vista").isPrefixOf l then 5 + winVerGo fuel (l.drop 5)
      else if (sl "xp").isPrefixOf l then 2 + winVerGo fuel (l.drop 2)
      else 0

/-- `(windows|win)\s*(\d{1,2}|vista|xp)*` after a matched stem of length `k`. -/
def winLen (k : Nat) (l : List Char) : Nat :=
  let r := l.drop k
  let w := countWs r
  k + w + winVerGo (r.drop w).length (r.drop w)

/-- The windows alternative: `windows` preferred over `win`. -/
def tryWin (l : List Char) : Option Nat :=
  if (sl "windows").isPrefixOf l then some (winLen 7 l)
  else if (sl "win").isPrefixOf l then some (winLen 3 l)
  else none

/-- First literal alternative (in list order) that is a prefix of `l`. -/
def firstLit : List (List Char) → List Char → Option Nat
  | [], _ => none
  | u :: us, l =>
    match tryLit u l with
    | some k => some k
    | none => firstLit us l

/-- Alternatives of the frequent-words regex that precede the windows group, in source order. -/
def noiseLitsA : List (List Char) :=
  [sl "led", sl "lcd", sl "monitor", sl "vga", sl "hdmi", sl "led"]

/-- Alternatives of the frequent-words regex that follow the windows group, in
source order (`colou?r` expands greedily to `colour` then `color`). -/
def noiseLitsB : List (List Char) :=
  [sl "pixel", sl "display", sl "touch", sl "touchscreen", sl "touchmonitor",
   sl "screen", sl "widescreen", sl "tft", sl "tv", sl "cable", sl "port",
   sl "desktop", sl "ios", sl "apple", sl "ebay", sl "new", sl "shop",
   sl "free", sl "item", sl "colour", sl "color"]

/-- Alternatives of the frequent-words regex, in source order (first match wins). -/
def matchNoiseCore (l : List Char) : Option Nat :=
  match firstLit noiseLitsA l with
  | some k => some k
  | none =>
    match tryWin l with
    | some k => some k
    | none => firstLit noiseLitsB l

/-- Matcher of the frequent-words regex
`r'\b(?:led|lcd|monitor|vga|hdmi|led|(windows|win)\s*(\d{1,2}|vista|xp)*|pixel|display|touch|touchscreen|touchmonitor|screen|widescreen|tft|tv|cable|port|desktop|ios|apple|ebay|new|shop|free|item|colou?r)s?'`.
Note the pattern has a word boundary only at the start; the final `s?` is greedy. -/
def matchNoise (pw : Bool) (l : List Char) : Option Nat :=
  if pw then none
  else (matchNoiseCore l).map (fun k => if l.get? k = some 's' then k + 1 else k)

/-- `remove_non_relevant_words` of `src/preprocessing.py`: the three
`re.sub(..., '', string)` passes, in source order. -/
def remove_non_relevant_words (s : List Char) : List Char :=
  subAll matchNoise (subAll matchRes (subAll matchUnit s))

/-- Modelled from the spec: `utils.string_utils.remove_extra_whitespaces` is
not among the repository's source files; the spec's cleaner collapses extra
whitespace, modelled as splitting on whitespace and re-joining the words with
single spaces (Python `' '.join(s.split())`). -/
def remove_extra_whitespaces (s : List Char) : List Char := joinWords (splitWs s)

/-- A token that looks like a website address (used by the modelled
`remove_websites`). -/
def isWebToken (w : List Char) : Bool :=
  hasSub (sl "www.") w || hasSub (sl "http") w || hasSub (sl ".com") w

/-- Fueled scanner of the modelled `remove_websites`: drop whitespace-delimited
tokens that look like website addresses, keep everything else verbatim. -/
def rwGo : Nat → List Char → List Char
  | 0, l => l
  | _+1, [] => []
  | fuel+1, c :: rest =>
    if isWs c then c :: rwGo fuel rest
    else
      let tok := (c :: rest).takeWhile (fun x => !(isWs x))
      let rest2 := (c :: rest).drop tok.length
      if isWebToken tok then rwGo fuel rest2 else tok ++ rwGo fuel rest2

/-- Modelled from the spec: `utils.string_utils.remove_websites` is not among
the repository's source files; modelled as deleting every whitespace-delimited
token containing `www.`, `http` or `.com`. -/
def remove_websites (s : List Char) : List Char := rwGo s.length s

/-- Modelled from the spec: `utils.string_utils.replace_special_chars_with_whitespace`
is not among the repository's source files; the spec's "punctuation stripping"
is modelled as replacing every character that is neither alphanumeric nor
whitespace by a space. -/
def replace_special_chars_with_whitespace (s : List Char) : List Char :=
  s.map (fun c => if c.isAlphanum || isWs c then c else ' ')

/-- Fueled scanner of the modelled `remove_whitespaces_between_numbers`:
delete a whitespace run whose neighbours on both sides are digits. -/
def rwbnGo : Nat → Bool → List Char → List Char
  | 0, _, l => l
  | _+1, _, [] => []
  | fuel+1, prevDigit, c :: rest =>
    if isWs c then
      let w := countWs (c :: rest)
      let r := (c :: rest).drop w
      if prevDigit && isDigitOpt r.head? then rwbnGo fuel prevDigit r
      else (c :: rest).take w ++ rwbnGo fuel false r
    else c :: rwbnGo fuel c.isDigit rest

/-- Modelled from the spec: `utils.string_utils.remove_whitespaces_between_numbers`
is not among the repository's source files; modelled as deleting whitespace
runs that lie between two digits. -/
def remove_whitespaces_between_numbers (s : List Char) : List Char :=
  rwbnGo s.length false s

/-- Modelled from the spec: `utils.string_utils.find_alphanumeric_words` is not
among the repository's source files; modelled as the whitespace-delimited words
containing both a letter and a digit (candidate model numbers). -/
def find_alphanumeric_words (s : List Char) : List (List Char) :=
  (splitWs s).filter (fun w => w.any Char.isAlpha && w.any Char.isDigit)

/-- `clean_text_data` of `src/preprocessing.py`: lowercase, remove websites,
replace special characters by whitespace, remove non-relevant words, remove
whitespace between numbers, collapse extra whitespace. -/
def clean_text_data (t : List Char) : List Char :=
  remove_extra_whitespaces (remove_whitespaces_between_numbers
    (remove_non_relevant_words (replace_special_chars_with_whitespace
      (remove_websites (lowerT t)))))

/-- `try_find_model_name` of `src/preprocessing.py`:
`' '.join(word if len(word) > 3 else '' for word in alphanumeric_words)`,
then collapse whitespace. -/
def try_find_model_name (s : List Char) : List Char :=
  remove_extra_whitespaces
    (joinWords ((find_alphanumeric_words s).map (fun w => if 3 < w.length then w else [])))

/-- The model-name replacement step of `process_directory`: when the cleaned
text has more than one word and `try_find_model_name` is non-empty, the
cleaned text is replaced by it. -/
def postClean (c : List Char) : List Char :=
  if 1 < (splitWs c).length then
    let mdl := try_find_model_name c
    if mdl ≠ [] then mdl else c
  else c

/-- The full per-item text normalisation of `process_directory`:
`clean_text_data` followed by the model-name replacement step. -/
def titleFor (t : List Char) : List Char := postClean (clean_text_data t)

/-- JSON values, as loaded by `json.load`. -/
inductive JVal where
  | jnull : JVal
  | jbool : Bool → JVal
  | jnum : Int → JVal
  | jstr : List Char → JVal
  | jlist : List JVal → JVal
  | jobj : List (List Char × JVal) → JVal

/-- Python truthiness of a JSON value. -/
def truthy : JVal → Bool
  | .jnull => false
  | .jbool b => b
  | .jnum n => n ≠ 0
  | .jstr s => !s.isEmpty
  | .jlist l => !l.isEmpty
  | .jobj f => !f.isEmpty

/-- First binding of a key in an association list (Python dict lookup). -/
def assocFind {α β : Type} [DecidableEq α] : List (α × β) → α → Option β
  | [], _ => none
  | (k', v) :: rest, k => if k' = k then some v else assocFind rest k

/-- Python `d[k] = v`: update the first binding in place, else append. -/
def dictSet {α β : Type} [DecidableEq α] : List (α × β) → α → β → List (α × β)
  | [], k, v => [(k, v)]
  | (k', v') :: rest, k, v =>
    if k' = k then (k, v) :: rest else (k', v') :: dictSet rest k v

/-- Python `d.update(other)`: set each binding of `other` in insertion order. -/
def dictUpdateAll {α β : Type} [DecidableEq α] (m other : List (α × β)) : List (α × β) :=
  other.foldl (fun acc kv => dictSet acc kv.1 kv.2) m

/-- `Counter` increment: bump the first binding, else append with count 1. -/
def counterInc : List (List Char × Nat) → List Char → List (List Char × Nat)
  | [], w => [(w, 1)]
  | (w', n) :: rest, w =>
    if w' = w then (w, n + 1) :: rest else (w', n) :: counterInc rest w

/-- Python `Counter.update(words)`. -/
def counterUpdate (c : List (List Char × Nat)) (ws : List (List Char)) : List (List Char × Nat) :=
  ws.foldl counterInc c

/-- The relevant labels of `get_relevant_text`, in source order. -/
def relevantLabels : List (List Char) :=
  [sl "model", sl "model name", sl "product model", sl "model number",
   sl "product name", sl "part", sl "product description"]

/-- The fallback key `'<page title>'`. -/
def pageTitleKey : List Char := sl "<page title>"

/-- `data[label][0]` when the value is a list, else `data[label]`. -/
def firstIfList : JVal → JVal
  | .jlist (x :: xs) => x
  | v => v

/-- The label loop of `get_relevant_text`: return the first truthy label's
value (first element for lists); when the labels are exhausted, fall back to
`data['<page title>']`, whose absence raises `KeyError` (embedded as `none`). -/
def grtGo (data : List (List Char × JVal)) : List (List Char) → Option JVal
  | [] => assocFind data pageTitleKey
  | lab :: labs =>
    match assocFind data lab with
    | some v => if truthy v then some (firstIfList v) else grtGo data labs
    | none => grtGo data labs

/-- `get_relevant_text` of `src/preprocessing.py`; `none` embeds a raised `KeyError`. -/
def get_relevant_text (data : List (List Char × JVal)) : Option JVal :=
  grtGo data relevantLabels

/-- `get_page_title` of `src/preprocessing.py`; `none` embeds a raised `KeyError`. -/
def get_page_title (data : List (List Char × JVal)) : Option JVal :=
  assocFind data pageTitleKey

/-- The words `remove_common_words` collects: those whose count is not below
`min_occurrences = len(item2pagetitle) * min_percentage` (the float threshold
is embedded as a rational).  Only membership in this list is used, so the
`most_common()` ordering is immaterial. -/
def wordsToRemove (m : List (List Char × List Char)) (counter : List (List Char × Nat))
    (p : ℚ) : List (List Char) :=
  (counter.filter (fun wc => decide (¬ ((wc.2 : ℚ) < (m.length : ℚ) * p)))).map Prod.fst

/-- One word of the per-title loop of `remove_common_words`: if the word is a
collected word, delete every substring occurrence (`value.replace(word, '')`)
and collapse whitespace, else leave the value alone. -/
def pruneStep (wtr : List (List Char)) (acc w : List Char) : List Char :=
  if w ∈ wtr then remove_extra_whitespaces (deleteSub w acc) else acc

/-- The per-title loop of `remove_common_words`, iterating over the words of
the original `value.split()`. -/
def pruneTitle (wtr : List (List Char)) (v : List Char) : List Char :=
  (splitWs v).foldl (pruneStep wtr) v

/-- `remove_common_words` of `src/preprocessing.py` (the in-place dict mutation
is embedded as returning the new dict; `source` is used only for logging). -/
def remove_common_words (source : List Char) (m : List (List Char × List Char))
    (counter : List (List Char × Nat)) (p : ℚ) : List (List Char × List Char) :=
  let wtr := wordsToRemove m counter p
  m.map (fun kv => (kv.1, pruneTitle wtr kv.2))

/-- Outcome of opening and `json.load`-ing an item file: an exception, or a value. -/
inductive FRead where
  | err : FRead
  | ok : JVal → FRead

/-- Text extraction inside `process_directory`'s `try` block: `data` must be a
dict, `get_relevant_text` must not raise, and the extracted value must be a
string (any other value makes `clean_text_data`'s `text.lower()` raise, which
the `except` swallows). -/
def extractText : JVal → Option (List Char)
  | .jobj fields =>
    match get_relevant_text fields with
    | some (.jstr s) => some s
    | _ => none
  | _ => none

/-- One file of `process_directory`'s loop: on read error, falsy (`empty`)
JSON, or an in-`try` exception the state is unchanged; otherwise the cleaned
title is recorded under `source + '//' + file.replace('.json', '')` and the
word counter is updated with its words. -/
def procStep (source : List Char)
    (st : List (List Char × List Char) × List (List Char × Nat))
    (file : List Char × FRead) :
    List (List Char × List Char) × List (List Char × Nat) :=
  match file.2 with
  | .err => st
  | .ok v =>
    if truthy v then
      match extractText v with
      | none => st
      | some t =>
        let item_name := source ++ sl "//" ++ deleteSub (sl ".json") file.1
        let cleaned_text := titleFor t
        (dictSet st.1 item_name cleaned_text, counterUpdate st.2 (splitWs cleaned_text))
    else st

/-- `process_directory` of `src/preprocessing.py` over a source directory's
files (the directory walk is embedded as the list of file-name/parse-outcome
pairs): build the title map and word counter, then run `remove_common_words`
with the default `min_percentage` of `0.02 = 1/50`. -/
def process_directory (source : List Char) (files : List (List Char × FRead)) :
    List (List Char × List Char) :=
  let st := files.foldl (procStep source) ([], [])
  remove_common_words source st.1 st.2 (1/50)

/-- One file of `process_directory_page_titles`' loop: the raw
`data['<page title>']` value is stored unprocessed; read errors, falsy JSON
and raised exceptions (non-dict data, missing key) contribute nothing. -/
def ptStep (source : List Char) (m : List (List Char × JVal))
    (file : List Char × FRead) : List (List Char × JVal) :=
  match file.2 with
  | .err => m
  | .ok v =>
    if truthy v then
      match v with
      | .jobj fields =>
        match assocFind fields pageTitleKey with
        | some pt => dictSet m (source ++ sl "//" ++ deleteSub (sl ".json") file.1) pt
        | none => m
      | _ => m
    else m

/-- `process_directory_page_titles` of `src/preprocessing.py`. -/
def process_directory_page_titles (source : List Char)
    (files : List (List Char × FRead)) : List (List Char × JVal) :=
  files.foldl (ptStep source) []

/-- The futures submitted by `process_sources`, in submission order: for each
source directory, `process_directory` then `process_directory_page_titles`
(processed titles are strings, embedded into the common value type `JVal`). -/
def sourceTasks (root : List (List Char × List (List Char × FRead))) :
    List (List (List Char × JVal)) :=
  root.flatMap (fun d =>
    [(process_directory d.1 d.2).map (fun kv => (kv.1, JVal.jstr kv.2)),
     process_directory_page_titles d.1 d.2])

/-- `process_sources` of `src/preprocessing.py`, returning the contents
written to `preprocessed_dataset.json` (first component) and
`item2pagetitle.json` (second component).  As in the source, **both** dicts
are updated with **every** future's result, and **both** files are written
from `item2pagetitle`; `item2processed` is computed but never written. -/
def process_sources (root : List (List Char × List (List Char × FRead))) :
    List (List Char × JVal) × List (List Char × JVal) :=
  let results := sourceTasks root
  let item2processed := results.foldl dictUpdateAll []
  let item2pagetitle := results.foldl dictUpdateAll []
  (item2pagetitle, item2pagetitle)

/-- Concurrent execution model: the completion log pairs each future index
with its (pure) task result, in completion order `σ`. -/
def concLog (tasks : List (List (List Char × JVal))) (σ : List Nat) :
    List (Nat × List (List Char × JVal)) :=
  σ.map (fun i => (i, tasks.getD i []))

/-- Merging in submission order from the completion log: for each future index
in submission order, `dict.update` with its completed result. -/
def concMerge (tasks : List (List (List Char × JVal))) (σ : List Nat) :
    List (List Char × JVal) :=
  (List.range tasks.length).foldl
    (fun acc i => dictUpdateAll acc ((assocFind (concLog tasks σ) i).getD [])) []

/-- `process_sources` under the concurrent execution model: the tasks complete
in an arbitrary order `σ`, and the main thread merges the results in
submission order (both output dicts receive every result, as in the source). -/
def process_sources_concurrent (root : List (List Char × List (List Char × FRead)))
    (σ : List Nat) : List (List Char × JVal) × List (List Char × JVal) :=
  let r := concMerge (sourceTasks root) σ
  (r, r)


/-- The word forms the spec's claim calls noise: the listed frequent words and
their plural (`s?`) forms.  (`windows?+version` forms all contain `win`.) -/
def claimedNoiseBase : List (List Char) :=
  [sl "led", sl "lcd", sl "monitor", sl "vga", sl "hdmi", sl "windows", sl "win",
   sl "pixel", sl "display", sl "touch", sl "touchscreen", sl "touchmonitor",
   sl "screen", sl "widescreen", sl "tft", sl "tv", sl "cable", sl "port",
   sl "desktop", sl "ios", sl "apple", sl "ebay", sl "new", sl "shop",
   sl "free", sl "item", sl "colour", sl "color"]

/-- The listed noise words together with their plural forms. -/
def claimedNoiseForms : List (List Char) :=
  claimedNoiseBase ++ claimedNoiseBase.map (fun w => w ++ sl "s")

/-- A one-source, one-item file system used as concrete input: the item has
only a page title, `"Acme LED!"`, whose normalised label is `""`. -/
def sampleRoot : List (List Char × List (List Char × FRead)) :=
  [(sl "s", [(sl "a.json", FRead.ok (JVal.jobj [(pageTitleKey, JVal.jstr (sl "Acme LED!"))]))])]

/-- The files of the single source directory of `sampleRoot`. -/
def sampleFiles : List (List Char × FRead) :=
  [(sl "a.json", FRead.ok (JVal.jobj [(pageTitleKey, JVal.jstr (sl "Acme LED!"))]))]

/-- Concrete per-source mapping for the `remove_common_words` counterexample. -/
def cexMap : List (List Char × List Char) :=
  [(sl "k1", sl "b cb"), (sl "k2", sl "c"), (sl "k3", sl "c"), (sl "k4", sl "b")]

/-- The word counter built from the titles of `cexMap`, exactly as
`process_directory` builds it (`word_counter.update(cleaned_text.split())`). -/
def cexCounter : List (List Char × Nat) :=
  cexMap.foldl (fun c kv => counterUpdate c (splitWs kv.2)) []

/-- Whether `data.get(label)` is truthy (the loop guard of `get_relevant_text`). -/
def truthyFound (data : List (List Char × JVal)) (lab : List Char) : Bool :=
  match assocFind data lab with
  | some v => truthy v
  | none => false

/-! ### Lemmas about prefixes and substring occurrences -/

theorem isPrefixOf_iff (pat l : List Char) : pat.isPrefixOf l = true ↔ ∃ t, l = pat ++ t := by
  induction pat generalizing l with
  | nil => simp [List.isPrefixOf]
  | cons p ps ih =>
    cases l with
    | nil => simp [List.isPrefixOf]
    | cons c cs =>
      simp only [List.isPrefixOf, Bool.and_eq_true, beq_iff_eq, ih, List.cons_append]
      constructor
      · rintro ⟨rfl, t, rfl⟩
        exact ⟨t, rfl⟩
      · rintro ⟨t, ht⟩
        injection ht with h1 h2
        exact ⟨h1.symm, t, h2⟩

theorem occursIn_append_left (s : List Char) {w t : List Char} (h : occursIn w t) :
    occursIn w (s ++ t) := by
  obtain ⟨u, v, rfl⟩ := h
  exact ⟨s ++ u, v, by rw [List.append_assoc]⟩

theorem occursIn_cons (c : Char) {w rest : List Char} (h : occursIn w rest) :
    occursIn w (c :: rest) :=
  occursIn_append_left [c] h

theorem occursIn_nil {w : List Char} (h : occursIn w []) : w = [] := by
  obtain ⟨u, v, h⟩ := h
  rcases List.append_eq_nil.mp h.symm with ⟨-, hwv⟩
  exact (List.append_eq_nil.mp hwv).1

theorem occursIn_of_not_prefix {w : List Char} {c : Char} {rest : List Char}
    (hp : w.isPrefixOf (c :: rest) = false) (h : occursIn w (c :: rest)) : occursIn w rest := by
  obtain ⟨u, v, hu⟩ := h
  cases u with
  | nil =>
    exfalso
    have : w.isPrefixOf (c :: rest) = true :=
      (isPrefixOf_iff w (c :: rest)).mpr ⟨v, by simpa using hu⟩
    rw [this] at hp
    cases hp
  | cons a u' =>
    injection hu with h1 h2
    exact ⟨u', v, h2⟩

/-! ### Length lemmas for `delGo` / `deleteSub` -/

theorem delGo_length_le (pat : List Char) :
    ∀ (fuel : Nat) (s : List Char), (delGo pat fuel s).length ≤ s.length := by
  intro fuel
  induction fuel with
  | zero => intro s; cases s <;> simp [delGo]
  | succ n ih =>
    intro s
    cases s with
    | nil => simp [delGo]
    | cons c rest =>
      simp only [delGo]
      split
      · calc (delGo pat n (rest.drop (pat.length - 1))).length
            ≤ (rest.drop (pat.length - 1)).length := ih _
          _ ≤ rest.length := by simp [List.length_drop]
          _ ≤ (c :: rest).length := by simp
      · simpa using ih rest

theorem delGo_length_lt (pat : List Char) (hne : pat ≠ []) :
    ∀ (fuel : Nat) (s : List Char), s.length ≤ fuel → occursIn pat s →
      (delGo pat fuel s).length < s.length := by
  intro fuel
  induction fuel with
  | zero =>
    intro s hs hocc
    have : s = [] := List.length_eq_zero.mp (Nat.le_zero.mp hs)
    subst this
    exact absurd (occursIn_nil hocc) hne
  | succ n ih =>
    intro s hs hocc
    cases s with
    | nil => exact absurd (occursIn_nil hocc) hne
    | cons c rest =>
      simp only [delGo]
      split
      · calc (delGo pat n (rest.drop (pat.length - 1))).length
            ≤ (rest.drop (pat.length - 1)).length := delGo_length_le pat n _
          _ ≤ rest.length := by simp [List.length_drop]
          _ < (c :: rest).length := by simp
      · rename_i h
        have hp : pat.isPrefixOf (c :: rest) = false := by
          cases hb : pat.isPrefixOf (c :: rest) with
          | false => rfl
          | true => exact absurd ⟨hne, hb⟩ h
        have hocc' : occursIn pat rest := occursIn_of_not_prefix hp hocc
        have hlen : rest.length ≤ n := by simpa using hs
        simpa using Nat.succ_lt_succ (ih rest hlen hocc')

theorem deleteSub_length_le (pat s : List Char) : (deleteSub pat s).length ≤ s.length :=
  delGo_length_le pat s.length s

theorem deleteSub_length_lt (pat s : List Char) (hne : pat ≠ []) (hocc : occursIn pat s) :
    (deleteSub pat s).length < s.length :=
  delGo_length_lt pat hne s.length s le_rfl hocc

/-! ### Length and membership lemmas for `splitWs` / `joinWords` -/

theorem joinWords_cons_le (w : List Char) (ws : List (List Char)) :
    (joinWords (w :: ws)).length ≤ w.length + 1 + (joinWords ws).length := by
  cases ws with
  | nil => simp [joinWords]
  | cons w2 ws' => simp [joinWords]; omega

theorem joinWords_splitWsGo_le :
    ∀ (s racc : List Char), (joinWords (splitWsGo racc s)).length ≤ racc.length + s.length := by
  intro s
  induction s with
  | nil =>
    intro racc
    simp only [splitWsGo]
    split
    · simp [joinWords]
    · simp [joinWords]
  | cons c rest ih =>
    intro racc
    simp only [splitWsGo]
    split
    · split
      · have := ih []
        simp at this ⊢
        omega
      · calc (joinWords (racc.reverse :: splitWsGo [] rest)).length
            ≤ racc.reverse.length + 1 + (joinWords (splitWsGo [] rest)).length :=
              joinWords_cons_le _ _
          _ ≤ racc.length + (c :: rest).length := by
              have := ih []
              simp at this ⊢
              omega
    · have := ih (c :: racc)
      simp at this ⊢
      omega

theorem remove_extra_whitespaces_le (s : List Char) :
    (remove_extra_whitespaces s).length ≤ s.length := by
  simpa using joinWords_splitWsGo_le s []

theorem mem_splitWsGo :
    ∀ (s racc w : List Char), w ∈ splitWsGo racc s → w ≠ [] ∧ occursIn w (racc.reverse ++ s) := by
  intro s
  induction s with
  | nil =>
    intro racc w hw
    simp only [splitWsGo] at hw
    split at hw
    · simp at hw
    · rename_i hemp
      simp at hw
      subst hw
      refine ⟨?_, [], [], rfl⟩
      simpa [List.reverse_eq_nil_iff, List.isEmpty_iff] using hemp
  | cons c rest ih =>
    intro racc w hw
    simp only [splitWsGo] at hw
    split at hw
    · split at hw
      · rename_i hws hemp
        have hr : racc = [] := by simpa [List.isEmpty_iff] using hemp
        subst hr
        obtain ⟨hne, hocc⟩ := ih [] w hw
        exact ⟨hne, by simpa using occursIn_cons c (by simpa using hocc)⟩
      · rename_i hws hemp
        rcases List.mem_cons.mp hw with h | h
        · subst h
          refine ⟨?_, [], c :: rest, rfl⟩
          simpa [List.reverse_eq_nil_iff, List.isEmpty_iff] using hemp
        · obtain ⟨hne, hocc⟩ := ih [] w h
          have : occursIn w rest := by simpa using hocc
          exact ⟨hne, occursIn_append_left racc.reverse (occursIn_cons c this)⟩
    · obtain ⟨hne, hocc⟩ := ih (c :: racc) w hw
      have heq : (c :: racc).reverse ++ rest = racc.reverse ++ c :: rest := by simp
      exact ⟨hne, heq ▸ hocc⟩

theorem mem_splitWs {s w : List Char} (h : w ∈ splitWs s) : w ≠ [] ∧ occursIn w s := by
  simpa using mem_splitWsGo s [] w h

/-! ### Lemmas about `pruneTitle` and `wordsToRemove` -/

theorem prune_fold_id (wtr : List (List Char)) :
    ∀ (ws : List (List Char)) (acc : List Char),
      (∀ w ∈ ws, w ∉ wtr) → ws.foldl (pruneStep wtr) acc = acc := by
  intro ws
  induction ws with
  | nil => intro acc _; rfl
  | cons w ws' ih =>
    intro acc h
    have hw : w ∉ wtr := h w (List.mem_cons_self _ _)
    simp only [List.foldl_cons, pruneStep, if_neg hw]
    exact ih acc (fun w' hw' => h w' (List.mem_cons_of_mem _ hw'))

theorem pruneStep_le (wtr : List (List Char)) (acc w : List Char) :
    (pruneStep wtr acc w).length ≤ acc.length := by
  unfold pruneStep
  split
  · calc (remove_extra_whitespaces (deleteSub w acc)).length
        ≤ (deleteSub w acc).length := remove_extra_whitespaces_le _
      _ ≤ acc.length := deleteSub_length_le w acc
  · exact le_rfl

theorem prune_fold_le (wtr : List (List Char)) :
    ∀ (ws : List (List Char)) (acc : List Char),
      (ws.foldl (pruneStep wtr) acc).length ≤ acc.length := by
  intro ws
  induction ws with
  | nil => intro acc; exact le_rfl
  | cons w ws' ih =>
    intro acc
    exact le_trans (ih _) (pruneStep_le wtr acc w)

theorem prune_fold_lt (wtr : List (List Char)) :
    ∀ (ws : List (List Char)) (acc : List Char),
      (∀ w ∈ ws, w ≠ [] ∧ occursIn w acc) → (∃ w ∈ ws, w ∈ wtr) →
      (ws.foldl (pruneStep wtr) acc).length < acc.length := by
  intro ws
  induction ws with
  | nil =>
    intro acc _ h
    simp at h
  | cons w ws' ih =>
    intro acc hin hex
    by_cases hw : w ∈ wtr
    · have h1 : (pruneStep wtr acc w).length < acc.length := by
        unfold pruneStep
        rw [if_pos hw]
        calc (remove_extra_whitespaces (deleteSub w acc)).length
            ≤ (deleteSub w acc).length := remove_extra_whitespaces_le _
          _ < acc.length :=
            deleteSub_length_lt w acc (hin w (List.mem_cons_self _ _)).1
              (hin w (List.mem_cons_self _ _)).2
      calc (List.foldl (pruneStep wtr) (pruneStep wtr acc w) ws').length
          ≤ (pruneStep wtr acc w).length := prune_fold_le wtr ws' _
        _ < acc.length := h1
    · have hstep : pruneStep wtr acc w = acc := by unfold pruneStep; rw [if_neg hw]
      simp only [List.foldl_cons, hstep]
      apply ih acc
      · exact fun w' h' => hin w' (List.mem_cons_of_mem _ h')
      · rcases hex with ⟨w', hw', hmem⟩
        rcases List.mem_cons.mp hw' with rfl | h'
        · exact absurd hmem hw
        · exact ⟨w', h', hmem⟩

theorem pruneTitle_id {wtr : List (List Char)} {v : List Char}
    (h : ∀ w ∈ splitWs v, w ∉ wtr) : pruneTitle wtr v = v :=
  prune_fold_id wtr (splitWs v) v h

theorem pruneTitle_lt {wtr : List (List Char)} {v : List Char}
    (h : ∃ w ∈ splitWs v, w ∈ wtr) : (pruneTitle wtr v).length < v.length :=
  prune_fold_lt wtr (splitWs v) v (fun w hw => mem_splitWs hw) h

theorem wordsToRemove_nil {m : List (List Char × List Char)} {counter : List (List Char × Nat)}
    {p : ℚ} (h : ∀ wc ∈ counter, (wc.2 : ℚ) < (m.length : ℚ) * p) :
    wordsToRemove m counter p = [] := by
  unfold wordsToRemove
  have hf : counter.filter (fun wc => decide (¬ ((wc.2 : ℚ) < (m.length : ℚ) * p))) = [] := by
    rw [List.filter_eq_nil_iff]
    intro wc hwc
    simp [h wc hwc]
  rw [hf]
  rfl

theorem mem_wordsToRemove {m : List (List Char × List Char)} {counter : List (List Char × Nat)}
    {p : ℚ} {wc : List Char × Nat} (hmem : wc ∈ counter)
    (h : ¬ ((wc.2 : ℚ) < (m.length : ℚ) * p)) : wc.1 ∈ wordsToRemove m counter p := by
  unfold wordsToRemove
  exact List.mem_map_of_mem _ (List.mem_filter.mpr ⟨hmem, by simpa using h⟩)

/-! ### Identity lemma for the `re.sub` scanner -/

theorem subAllGo_id (m : Bool → List Char → Option Nat) :
    ∀ (l : List Char) (fuel : Nat) (pw : Bool), l.length ≤ fuel →
      (∀ (pw' : Bool) (j : Nat), j ≤ l.length → m pw' (l.drop j) = none) →
      subAllGo m fuel pw l = l := by
  intro l
  induction l with
  | nil => intro fuel pw _ _; cases fuel <;> rfl
  | cons c rest ih =>
    intro fuel pw hlen h
    cases fuel with
    | zero => rfl
    | succ n =>
      have h0 : m pw (c :: rest) = none := by simpa using h pw 0 (Nat.zero_le _)
      simp only [subAllGo, h0]
      congr 1
      apply ih n (isWordChar c)
      · simpa using hlen
      · intro pw' j hj
        have := h pw' (j + 1) (by simpa using hj)
        simpa [List.drop_succ_cons] using this

theorem subAll_id {m : Bool → List Char → Option Nat} {s : List Char}
    (h : ∀ (pw : Bool) (j : Nat), j ≤ s.length → m pw (s.drop j) = none) :
    subAll m s = s :=
  subAllGo_id m s s.length false le_rfl h

/-! ### Lemmas about `get_relevant_text`'s label loop -/

theorem grtGo_skip (data : List (List Char × JVal)) (lab : List Char)
    (labs : List (List Char)) (h : truthyFound data lab = false) :
    grtGo data (lab :: labs) = grtGo data labs := by
  simp only [grtGo]
  cases hf : assocFind data lab with
  | none => rfl
  | some v =>
    have hv : truthy v = false := by simpa [truthyFound, hf] using h
    simp [hv]

theorem grtGo_skip_all (data : List (List Char × JVal)) :
    ∀ (pre rest : List (List Char)), (∀ lab ∈ pre, truthyFound data lab = false) →
      grtGo data (pre ++ rest) = grtGo data rest := by
  intro pre
  induction pre with
  | nil => intro rest _; rfl
  | cons lab pre' ih =>
    intro rest h
    rw [List.cons_append, grtGo_skip data lab _ (h lab (List.mem_cons_self _ _))]
    exact ih rest (fun l hl => h l (List.mem_cons_of_mem _ hl))

theorem grtGo_hit (data : List (List Char × JVal)) (lab : List Char)
    (labs : List (List Char)) (h : truthyFound data lab = true) :
    grtGo data (lab :: labs) = (assocFind data lab).map firstIfList := by
  simp only [grtGo]
  cases hf : assocFind data lab with
  | none => simp [truthyFound, hf] at h
  | some v =>
    have hv : truthy v = true := by simpa [truthyFound, hf] using h
    simp [hv]

/-! ### Lemmas about dictionaries and the per-directory fold -/

theorem mem_dictSet {α β : Type} [DecidableEq α] :
    ∀ (mm : List (α × β)) (k : α) (v : β) (kv : α × β),
      kv ∈ dictSet mm k v → kv ∈ mm ∨ kv = (k, v) := by
  intro mm
  induction mm with
  | nil =>
    intro k v kv h
    simp [dictSet] at h
    right
    exact h
  | cons x rest ih =>
    intro k v kv h
    obtain ⟨k', v'⟩ := x
    simp only [dictSet] at h
    split at h
    · rcases List.mem_cons.mp h with h1 | h1
      · right; exact h1
      · left; exact List.mem_cons_of_mem _ h1
    · rcases List.mem_cons.mp h with h1 | h1
      · left; exact h1 ▸ List.mem_cons_self _ _
      · rcases ih k v kv h1 with h2 | h2
        · left; exact List.mem_cons_of_mem _ h2
        · right; exact h2

theorem procStep_mem (source : List Char)
    (st : List (List Char × List Char) × List (List Char × Nat))
    (f : List Char × FRead) (kv : List Char × List Char)
    (hkv : kv ∈ (procStep source st f).1) :
    kv ∈ st.1 ∨ ∃ t, kv.2 = postClean (clean_text_data t) := by
  obtain ⟨name, c⟩ := f
  cases c with
  | err => left; exact hkv
  | ok v =>
    simp only [procStep] at hkv
    by_cases ht : truthy v = true
    · rw [if_pos ht] at hkv
      cases he : extractText v with
      | none => rw [he] at hkv; left; exact hkv
      | some t =>
        rw [he] at hkv
        rcases mem_dictSet st.1 _ _ kv hkv with h1 | h1
        · left; exact h1
        · right; exact ⟨t, by simp only [h1, titleFor]⟩
    · rw [if_neg ht] at hkv
      left
      exact hkv

theorem procFold_titles (source : List Char) :
    ∀ (files : List (List Char × FRead))
      (st : List (List Char × List Char) × List (List Char × Nat)),
      (∀ kv ∈ st.1, ∃ t, kv.2 = postClean (clean_text_data t)) →
      ∀ kv ∈ (files.foldl (procStep source) st).1, ∃ t, kv.2 = postClean (clean_text_data t) := by
  intro files
  induction files with
  | nil => intro st h kv hkv; exact h kv hkv
  | cons f fs ih =>
    intro st h kv hkv
    rw [List.foldl_cons] at hkv
    refine ih (procStep source st f) ?_ kv hkv
    intro kv' hkv'
    rcases procStep_mem source st f kv' hkv' with h1 | h1
    · exact h kv' h1
    · exact h1

theorem procStep_skip (source : List Char)
    (st : List (List Char × List Char) × List (List Char × Nat))
    (name : List Char) (c : FRead)
    (h : c = FRead.err ∨ ∃ v, c = FRead.ok v ∧ truthy v = false) :
    procStep source st (name, c) = st := by
  rcases h with rfl | ⟨v, rfl, hv⟩
  · rfl
  · unfold procStep
    simp [hv]

/-! ### Lemmas for the concurrent execution model -/

theorem assocFind_map_pair {β : Type} (f : Nat → β) :
    ∀ (σ : List Nat) (i : Nat), i ∈ σ →
      assocFind (σ.map (fun j => (j, f j))) i = some (f i) := by
  intro σ
  induction σ with
  | nil => intro i h; simp at h
  | cons j σ2 ih =>
    intro i h
    simp only [List.map_cons, assocFind]
    by_cases hj : j = i
    · rw [if_pos hj, hj]
    · rw [if_neg hj]
      refine ih i ?_
      rcases List.mem_cons.mp h with rfl | h2
      · exact absurd rfl hj
      · exact h2

theorem range_foldl_getD {A B : Type} (g : B → A → B) (d : A) :
    ∀ (ts : List A) (z : B),
      (List.range ts.length).foldl (fun acc i => g acc (ts.getD i d)) z = ts.foldl g z := by
  intro ts
  induction ts with
  | nil => intro z; rfl
  | cons t ts2 ih =>
    intro z
    rw [List.length_cons, List.range_succ_eq_map, List.foldl_cons, List.foldl_map]
    simp only [List.getD_cons_succ, List.getD_cons_zero]
    exact ih (g z t)

theorem concMerge_eq (tasks : List (List (List Char × JVal))) (σ : List Nat)
    (hperm : σ.Perm (List.range tasks.length)) :
    concMerge tasks σ = tasks.foldl dictUpdateAll [] := by
  unfold concMerge concLog
  have hstep : ∀ (acc : List (List Char × JVal)), ∀ i ∈ List.range tasks.length,
      dictUpdateAll acc ((assocFind (σ.map (fun j => (j, tasks.getD j []))) i).getD [])
        = dictUpdateAll acc (tasks.getD i []) := by
    intro acc i hi
    rw [assocFind_map_pair _ σ i (hperm.mem_iff.mpr hi)]
    rfl
  have h1 := List.foldl_ext _ _
    (l := List.range tasks.length)
    (a := ([] : List (List Char × JVal))) hstep
  rw [h1]
  exact range_foldl_getD dictUpdateAll [] tasks []

/-! ### Claim theorems -/

/-- Claim C1 (code-bug evidence): on `sampleRoot`, `process_sources` writes the
same mapping to both output files — the raw page title `"Acme LED!"` under both
`preprocessed_dataset.json` (first component) and `item2pagetitle.json`
(second component) — even though the normalised label computed by
`process_directory` for the same item is `""`.  The two files do not receive
distinct contents and the preprocessed file does not receive the normalised
labels. -/
theorem C1_code_bug_eval :
    process_sources sampleRoot =
      ([(sl "s//a", JVal.jstr (sl "Acme LED!"))], [(sl "s//a", JVal.jstr (sl "Acme LED!"))])
    ∧ process_directory (sl "s") sampleFiles = [(sl "s//a", sl "")]
    ∧ sl "" ≠ sl "Acme LED!" := by
  refine ⟨by with_unfolding_all rfl, by with_unfolding_all rfl, by decide⟩

/-- Claim C2 counterexample: with the counter built from the titles of `cexMap`
and `min_percentage = 2/5`, the words `b` and `c` are common (count 2, threshold
8/5) and `cb` is rare (count 1).  After `remove_common_words`, the title of `k1`
is exactly the common word `c` (a title contains a common word), and the rare
word `cb`, originally a word of `k1`'s title, no longer occurs in it (a word
below the threshold does not appear unchanged). -/
theorem C2_counterexample :
    cexCounter = [(sl "b", 2), (sl "cb", 1), (sl "c", 2)]
    ∧ ¬ ((2 : ℚ) < (cexMap.length : ℚ) * (2/5))
    ∧ ((1 : ℚ) < (cexMap.length : ℚ) * (2/5))
    ∧ remove_common_words (sl "src") cexMap cexCounter (2/5) =
        [(sl "k1", sl "c"), (sl "k2", sl ""), (sl "k3", sl ""), (sl "k4", sl "")]
    ∧ (sl "c") ∈ splitWs (sl "c")
    ∧ (sl "cb") ∈ splitWs (sl "b cb")
    ∧ (sl "cb") ∉ splitWs (sl "c") := by
  refine ⟨by decide, by with_unfolding_all decide, by with_unfolding_all decide,
    by with_unfolding_all decide, by decide, by decide, by decide⟩

/-- Claim C2 (amended): after `remove_common_words`, an entry whose title has no
common word (count at least `min_percentage` times the number of items) among
its original words is unchanged, while an entry whose title does contain a
common word among its original words is strictly shortened — each such word is
deleted by substring replacement (`value.replace(word, '')`) with whitespace
re-collapsed.  Words below the threshold are not guaranteed to survive, since
the replacement is substring-based. -/
theorem C2_amended (source : List Char) (m : List (List Char × List Char))
    (counter : List (List Char × Nat)) (p : ℚ) (k v : List Char) (hkv : (k, v) ∈ m) :
    ((∀ w ∈ splitWs v, w ∉ wordsToRemove m counter p) →
      (k, v) ∈ remove_common_words source m counter p)
    ∧ ((∃ w ∈ splitWs v, w ∈ wordsToRemove m counter p) →
      ∃ v2, (k, v2) ∈ remove_common_words source m counter p ∧ v2.length < v.length) := by
  constructor
  · intro h
    have hid : pruneTitle (wordsToRemove m counter p) v = v := pruneTitle_id h
    have hm := List.mem_map_of_mem
      (fun kv => (kv.1, pruneTitle (wordsToRemove m counter p) kv.2)) hkv
    simpa [remove_common_words, hid] using hm
  · intro h
    refine ⟨pruneTitle (wordsToRemove m counter p) v, ?_, pruneTitle_lt h⟩
    have hm := List.mem_map_of_mem
      (fun kv => (kv.1, pruneTitle (wordsToRemove m counter p) kv.2)) hkv
    simpa [remove_common_words] using hm

/-- Witness for the amended claim C2: in the one-item mapping `{k ↦ "aa bb"}`
with counter `{aa ↦ 5, bb ↦ 0}` and `min_percentage = 2`, the word `aa` is
common, and the entry is strictly shortened. -/
theorem C2_amended_witness :
    (sl "k", sl "aa bb") ∈ [(sl "k", sl "aa bb")]
    ∧ ∃ v2, (sl "k", v2) ∈ remove_common_words (sl "s") [(sl "k", sl "aa bb")]
        [(sl "aa", 5), (sl "bb", 0)] 2 ∧ v2.length < (sl "aa bb").length :=
  ⟨by decide,
   (C2_amended (sl "s") [(sl "k", sl "aa bb")] [(sl "aa", 5), (sl "bb", 0)] 2
     (sl "k") (sl "aa bb") (by decide)).2
     ⟨sl "aa", by decide, by with_unfolding_all decide⟩⟩

/-- Claim C3: `get_relevant_text` returns the value of the first label among
the relevant labels (in source order) whose value is truthy — taking the first
element when that value is a list, via `firstIfList` — and when no relevant
label is truthy it falls back to the record's `'<page title>'` field. -/
theorem C3_get_relevant_text (data : List (List Char × JVal)) :
    (∀ (pre : List (List Char)) (lab : List Char) (post : List (List Char)),
      relevantLabels = pre ++ lab :: post →
      (∀ l2 ∈ pre, truthyFound data l2 = false) →
      truthyFound data lab = true →
      get_relevant_text data = (assocFind data lab).map firstIfList)
    ∧ ((∀ lab ∈ relevantLabels, truthyFound data lab = false) →
      get_relevant_text data = assocFind data pageTitleKey) := by
  constructor
  · intro pre lab post heq hpre hlab
    unfold get_relevant_text
    rw [heq, grtGo_skip_all data pre _ hpre, grtGo_hit data lab post hlab]
  · intro h
    unfold get_relevant_text
    have happ : relevantLabels ++ ([] : List (List Char)) = relevantLabels := by simp
    rw [← happ, grtGo_skip_all data relevantLabels [] h]
    rfl

/-- Witness for claim C3: a record with a truthy `model` field returns that
field's value, and a record with no truthy relevant label falls back to the
page-title lookup. -/
theorem C3_witness :
    get_relevant_text [(sl "model", JVal.jstr (sl "X5"))] =
      (assocFind [(sl "model", JVal.jstr (sl "X5"))] (sl "model")).map firstIfList
    ∧ get_relevant_text [(sl "qq", JVal.jnull)] =
      assocFind [(sl "qq", JVal.jnull)] pageTitleKey :=
  ⟨(C3_get_relevant_text _).1 [] (sl "model")
      [sl "model name", sl "product model", sl "model number", sl "product name",
       sl "part", sl "product description"] (by decide) (by decide) (by decide),
   (C3_get_relevant_text _).2 (by decide)⟩

/-- Claim C4 counterexample: `ledge` contains no digit and is none of the
listed noise words (nor a plural of one), yet `remove_non_relevant_words`
changes it — the frequent-words pattern has a word boundary only at its start,
so the prefix `led` is deleted and `ledge` becomes `ge`. -/
theorem C4_counterexample :
    (∀ c ∈ sl "ledge", c.isDigit = false)
    ∧ sl "ledge" ∉ claimedNoiseForms
    ∧ remove_non_relevant_words (sl "ledge") = sl "ge"
    ∧ sl "ge" ≠ sl "ledge" := by
  refine ⟨by decide, by decide, by decide, by decide⟩

/-- Claim C4 (amended): `remove_non_relevant_words` deletes the matches of its
three patterns scanning left to right; a string in which no position matches
any of the three patterns is returned unchanged.  But the frequent-noise-word
pattern requires a word boundary only at its start, so a word that merely
begins with a listed noise word is truncated: `ledge` becomes `ge`. -/
theorem C4_amended :
    (∀ s : List Char,
      (∀ (pw : Bool) (j : Nat), j ≤ s.length → matchUnit pw (s.drop j) = none) →
      (∀ (pw : Bool) (j : Nat), j ≤ s.length → matchRes pw (s.drop j) = none) →
      (∀ (pw : Bool) (j : Nat), j ≤ s.length → matchNoise pw (s.drop j) = none) →
      remove_non_relevant_words s = s)
    ∧ remove_non_relevant_words (sl "ledge") = sl "ge" := by
  constructor
  · intro s h1 h2 h3
    unfold remove_non_relevant_words
    rw [subAll_id h1, subAll_id h2, subAll_id h3]
  · decide

/-- Witness for the amended claim C4: no pattern matches anywhere in `ok`, and
the theorem yields that `remove_non_relevant_words` leaves it unchanged. -/
theorem C4_amended_witness :
    (∀ (pw : Bool) (j : Nat), j ≤ (sl "ok").length → matchUnit pw ((sl "ok").drop j) = none)
    ∧ (∀ (pw : Bool) (j : Nat), j ≤ (sl "ok").length → matchRes pw ((sl "ok").drop j) = none)
    ∧ (∀ (pw : Bool) (j : Nat), j ≤ (sl "ok").length → matchNoise pw ((sl "ok").drop j) = none)
    ∧ remove_non_relevant_words (sl "ok") = sl "ok" :=
  ⟨by decide, by decide, by decide,
   C4_amended.1 (sl "ok") (by decide) (by decide) (by decide)⟩

/-- Claim C5: a file whose read or JSON parse raises, and likewise a file whose
parsed JSON is falsy (`empty`), contributes no entry to the per-source mapping
of `process_directory`, and the entries built from the other files are exactly
those obtained by processing the file list without it. -/
theorem C5_process_directory_skips (source : List Char)
    (files1 files2 : List (List Char × FRead)) (name : List Char) (c : FRead)
    (h : c = FRead.err ∨ ∃ v, c = FRead.ok v ∧ truthy v = false) :
    process_directory source (files1 ++ (name, c) :: files2) =
      process_directory source (files1 ++ files2) := by
  unfold process_directory
  rw [List.foldl_append, List.foldl_append, List.foldl_cons, procStep_skip source _ name c h]

/-- Witness for claim C5: inserting an unreadable file before the files of
`sampleFiles` leaves `process_directory`'s result unchanged. -/
theorem C5_witness :
    (FRead.err = FRead.err ∨ ∃ v, FRead.err = FRead.ok v ∧ truthy v = false)
    ∧ process_directory (sl "s") ([] ++ (sl "bad.json", FRead.err) :: sampleFiles) =
        process_directory (sl "s") ([] ++ sampleFiles) :=
  ⟨Or.inl rfl,
   C5_process_directory_skips (sl "s") [] sampleFiles (sl "bad.json") FRead.err (Or.inl rfl)⟩

/-- Claim C6: `clean_text_data` is the composition, in this order, of
lowercasing, website removal, replacing special characters with whitespace,
removing non-relevant words, removing whitespace between numbers and collapsing
extra whitespace; `process_directory` is `remove_common_words` applied to the
map and counter built by the per-file fold; and every title in that map is the
output of `clean_text_data` (followed by the model-name step `postClean`), so
every title is cleaned before the corpus-level pruning pass runs. -/
theorem C6_pipeline :
    (∀ t : List Char, clean_text_data t =
      remove_extra_whitespaces (remove_whitespaces_between_numbers
        (remove_non_relevant_words (replace_special_chars_with_whitespace
          (remove_websites (lowerT t))))))
    ∧ (∀ (source : List Char) (files : List (List Char × FRead)),
        process_directory source files =
          remove_common_words source (files.foldl (procStep source) ([], [])).1
            (files.foldl (procStep source) ([], [])).2 (1/50))
    ∧ (∀ (source : List Char) (files : List (List Char × FRead)),
        ∀ kv ∈ (files.foldl (procStep source) ([], [])).1,
          ∃ t, kv.2 = postClean (clean_text_data t)) := by
  refine ⟨fun t => rfl, fun source files => rfl, fun source files kv hkv => ?_⟩
  exact procFold_titles source files ([], []) (by simp) kv hkv

/-- Witness for claim C6: the fold over `sampleFiles` contains the entry for
`s//a`, whose title is the cleaned text of some extracted string. -/
theorem C6_witness :
    (sl "s//a", sl "acme") ∈ (sampleFiles.foldl (procStep (sl "s")) ([], [])).1
    ∧ ∃ t, (sl "s//a", sl "acme").2 = postClean (clean_text_data t) :=
  ⟨by decide,
   C6_pipeline.2.2 (sl "s") sampleFiles (sl "s//a", sl "acme") (by decide)⟩

/-- Claim C7: under the concurrent execution model — pure per-directory tasks
completing in an arbitrary order `σ`, results merged in submission order —
`process_sources` produces exactly the two consolidated mappings of the
sequential submission-order computation. -/
theorem C7_concurrent_refines (root : List (List Char × List (List Char × FRead)))
    (σ : List Nat) (hperm : σ.Perm (List.range (sourceTasks root).length)) :
    process_sources_concurrent root σ = process_sources root := by
  unfold process_sources_concurrent process_sources
  rw [concMerge_eq (sourceTasks root) σ hperm]

/-- Witness for claim C7: on `sampleRoot` with its two tasks completing in
reversed order, the concurrent run equals the sequential one. -/
theorem C7_witness :
    ([1, 0] : List Nat).Perm (List.range (sourceTasks sampleRoot).length)
    ∧ process_sources_concurrent sampleRoot [1, 0] = process_sources sampleRoot :=
  ⟨by with_unfolding_all decide,
   C7_concurrent_refines sampleRoot [1, 0] (by with_unfolding_all decide)⟩

/-- Claim C8: with the default `min_percentage = 1/50` (`0.02`) and at most 50
items, the threshold `min_occurrences = len(item2pagetitle) * min_percentage`
is at most 1, so every counter word occurring at least once is collected into
the words to remove. -/
theorem C8_small_sources (m : List (List Char × List Char))
    (counter : List (List Char × Nat)) (h : m.length ≤ 50) :
    (m.length : ℚ) * (1/50) ≤ 1
    ∧ ∀ wc ∈ counter, 1 ≤ wc.2 → wc.1 ∈ wordsToRemove m counter (1/50) := by
  have hm : (m.length : ℚ) ≤ 50 := by exact_mod_cast h
  have hmin : (m.length : ℚ) * (1/50) ≤ 1 := by linarith
  refine ⟨hmin, fun wc hwc hc => ?_⟩
  apply mem_wordsToRemove hwc
  have h1 : (1 : ℚ) ≤ (wc.2 : ℚ) := by exact_mod_cast hc
  intro hlt
  linarith

/-- Witness for claim C8: a one-item mapping and a counter with a word of
count 3; the word is collected. -/
theorem C8_witness :
    ([(sl "k", sl "t")] : List (List Char × List Char)).length ≤ 50
    ∧ ((([(sl "k", sl "t")] : List (List Char × List Char)).length : ℚ) * (1/50) ≤ 1
      ∧ ∀ wc ∈ [(sl "w", 3)], 1 ≤ wc.2 →
          wc.1 ∈ wordsToRemove [(sl "k", sl "t")] [(sl "w", 3)] (1/50)) :=
  ⟨by decide, C8_small_sources [(sl "k", sl "t")] [(sl "w", 3)] (by decide)⟩

/-- Claim C9: if no counter word has a count of at least `min_percentage` times
the number of items, `remove_common_words` is the identity on the mapping. -/
theorem C9_no_common_identity (source : List Char) (m : List (List Char × List Char))
    (counter : List (List Char × Nat)) (p : ℚ)
    (h : ∀ wc ∈ counter, (wc.2 : ℚ) < (m.length : ℚ) * p) :
    remove_common_words source m counter p = m := by
  show m.map (fun kv => (kv.1, pruneTitle (wordsToRemove m counter p) kv.2)) = m
  rw [wordsToRemove_nil h]
  have hid : ∀ kv ∈ m, (kv.1, pruneTitle ([] : List (List Char)) kv.2) = id kv := by
    intro kv hkv
    have : pruneTitle ([] : List (List Char)) kv.2 = kv.2 := pruneTitle_id (by simp)
    rw [this]
    rfl
  rw [List.map_congr_left hid, List.map_id]

/-- Witness for claim C9: a counter whose only word has count 0 is entirely
below the threshold, and the mapping is unchanged. -/
theorem C9_witness :
    (∀ wc ∈ [(sl "a", 0)],
      ((wc.2 : ℚ) < (([(sl "k", sl "a b")] : List (List Char × List Char)).length : ℚ) * 1))
    ∧ remove_common_words (sl "s") [(sl "k", sl "a b")] [(sl "a", 0)] 1 =
        [(sl "k", sl "a b")] :=
  ⟨by with_unfolding_all decide,
   C9_no_common_identity (sl "s") [(sl "k", sl "a b")] [(sl "a", 0)] 1
     (by with_unfolding_all decide)⟩

/-- Claim C10: when no relevant label is truthy and the `'<page title>'` key is
absent, `get_relevant_text` raises `KeyError` (embedded as `none`); likewise
`get_page_title` raises on any record without the `'<page title>'` key. -/
theorem C10_keyerror (data : List (List Char × JVal)) :
    ((∀ lab ∈ relevantLabels, truthyFound data lab = false) →
      assocFind data pageTitleKey = none → get_relevant_text data = none)
    ∧ (assocFind data pageTitleKey = none → get_page_title data = none) := by
  constructor
  · intro h hpt
    unfold get_relevant_text
    have happ : relevantLabels ++ ([] : List (List Char)) = relevantLabels := by simp
    rw [← happ, grtGo_skip_all data relevantLabels [] h]
    exact hpt
  · intro hpt
    exact hpt

/-- Witness for claim C10: a record with a single irrelevant null field has no
truthy relevant label and no page title, so both lookups raise. -/
theorem C10_witness :
    get_relevant_text [(sl "x", JVal.jnull)] = none
    ∧ get_page_title ([] : List (List Char × JVal)) = none :=
  ⟨(C10_keyerror _).1 (by decide) (by rfl), (C10_keyerror _).2 (by rfl)⟩
